import Mathlib

/-!
Verification of the electricity-outage-checker repository (Python) against its
natural-language specification.  The Python sources are shallowly embedded:
strings are `String`/`List Char`, dictionaries are association lists looked up
with `List.lookup` (first match; Python dicts have unique keys), fallible code
returns `Option`/`Except`, and iteration order of a dict is the order of the
association list (Python dicts preserve insertion order).
-/

/-! ## Shared helpers (Python string primitives) -/

/-- The character `{` (written via its code point). -/
def lbrace : Char := Char.ofNat 123

/-- The character `}` (written via its code point). -/
def rbrace : Char := Char.ofNat 125

/-- The backslash character. -/
def bslash : Char := Char.ofNat 92

/-- The double-quote character. -/
def dquote : Char := Char.ofNat 34

/-- ASCII whitespace as recognised by Python's `str.strip`, `int` and the
regex class `\s` (space, tab, newline, carriage return, vertical tab,
form feed).  The Python versions also accept further unicode whitespace;
the provider data is ASCII, so the embedding models the ASCII fragment. -/
def pyWs (c : Char) : Bool :=
  c = ' ' || c = Char.ofNat 9 || c = Char.ofNat 10 || c = Char.ofNat 13 ||
  c = Char.ofNat 11 || c = Char.ofNat 12

/-- Python `str.strip()`: drop whitespace from both ends. -/
def pyStrip (cs : List Char) : List Char :=
  ((cs.dropWhile pyWs).reverse.dropWhile pyWs).reverse

/-- Python `s.split(",")`: split at every comma; the empty string yields one
empty segment, and separators at the ends yield empty segments. -/
def pySplitComma : List Char → List (List Char)
  | [] => [[]]
  | c :: rest =>
    if c = ',' then [] :: pySplitComma rest
    else
      match pySplitComma rest with
      | [] => [[c]]
      | seg :: segs => (c :: seg) :: segs

/-- Python `f"{n:02d}"` for a nonnegative `n`: decimal, left-padded with `0`
to at least two digits. -/
def pad2 (n : Nat) : String :=
  if n < 10 then "0" ++ toString n else toString n

/-- A clock string `HH:00` as produced by `HourStatus.start_time`/`end_time`. -/
def clock (n : Nat) : String := pad2 n ++ ":00"

/-- Python `int(s)` on a decimal literal: surrounding whitespace is stripped,
an optional sign is allowed, and at least one digit is required.  (Python
additionally allows `_` digit separators, which never occur in the
timestamp keys this repository parses.) -/
def digitsToNat (ds : List Char) : Option Nat :=
  if ds.isEmpty then none
  else if ds.all Char.isDigit then
    some (ds.foldl (fun a c => a * 10 + (c.toNat - 48)) 0)
  else none

def pyInt (s : String) : Option Int :=
  match pyStrip s.data with
  | '-' :: ds => (digitsToNat ds).map (fun n => -(n : Int))
  | '+' :: ds => (digitsToNat ds).map (fun n => (n : Int))
  | ds => (digitsToNat ds).map (fun n => (n : Int))

/-- Run a fallible step over a list, aborting at the first failure, as a
Python `for` loop whose body may `raise` does. -/
def mapOrFailE {α β ε : Type} (f : α → Except ε β) : List α → Except ε (List β)
  | [] => .ok []
  | a :: as =>
    match f a with
    | .error e => .error e
    | .ok b =>
      match mapOrFailE f as with
      | .error e => .error e
      | .ok bs => .ok (b :: bs)

/-! ## models.py -/

/-- `PowerStatus`: the closed enumeration of raw provider codes
(models.py lines 8-17). -/
inductive PowerStatus where
  | YES
  | NO
  | MAYBE
  | FIRST
  | SECOND
  | MAYBE_FIRST
  | MAYBE_SECOND
deriving DecidableEq, Repr

/-- `PowerStatus(value)`: construct from the raw string, failing (Python
`ValueError`) on an unknown code. -/
def PowerStatus.fromString : String → Option PowerStatus
  | "yes" => some .YES
  | "no" => some .NO
  | "maybe" => some .MAYBE
  | "first" => some .FIRST
  | "second" => some .SECOND
  | "mfirst" => some .MAYBE_FIRST
  | "msecond" => some .MAYBE_SECOND
  | _ => none

/-- `PowerStatus.has_power` (models.py line 22): `self == PowerStatus.YES`. -/
def PowerStatus.has_power (s : PowerStatus) : Bool := s = .YES

/-- `PowerStatus.no_power` (models.py line 27). -/
def PowerStatus.no_power (s : PowerStatus) : Bool := s = .NO

/-- `PowerStatus.is_partial` (models.py lines 32-37). -/
def PowerStatus.is_partial (s : PowerStatus) : Bool :=
  s = .FIRST || s = .SECOND || s = .MAYBE_FIRST || s = .MAYBE_SECOND

/-- `PowerStatus.is_uncertain` (models.py line 42). -/
def PowerStatus.is_uncertain (s : PowerStatus) : Bool :=
  s = .MAYBE || s = .MAYBE_FIRST || s = .MAYBE_SECOND

/-- `Address` (models.py lines 68-78). -/
structure Address where
  city : String
  street : String
  house : String
deriving DecidableEq, Repr

/-- `Address.from_string` (models.py lines 80-98): split on commas, strip
each part, require exactly three parts (`ValueError` otherwise). -/
def Address.from_string (address_str : String) : Option Address :=
  let parts := (pySplitComma address_str.data).map (fun p => String.mk (pyStrip p))
  match parts with
  | [c, s, h] => some ⟨c, s, h⟩
  | _ => none

/-- `HourStatus` (models.py lines 101-107). -/
structure HourStatus where
  hour : Nat
  status : PowerStatus
  time_range : String
deriving DecidableEq, Repr

/-- `HourStatus.start_time` (models.py line 112): `f"{self.hour - 1:02d}:00"`. -/
def HourStatus.start_time (h : HourStatus) : String := clock (h.hour - 1)

/-- `HourStatus.end_time` (models.py line 117):
`f"{self.hour:02d}:00" if self.hour < 24 else "24:00"`. -/
def HourStatus.end_time (h : HourStatus) : String :=
  if h.hour < 24 then clock h.hour else "24:00"

/-- `DaySchedule` (models.py lines 120-127).  `date` is the Unix timestamp the
Python code turns into a `datetime` via the order-preserving
`datetime.fromtimestamp`; sorting by `date` below models sorting by that
`datetime`. -/
structure DaySchedule where
  date : Int
  day_name : String
  group : String
  hours : List HourStatus
deriving DecidableEq, Repr

/-- The loop of `DaySchedule.get_outage_periods` (models.py lines 140-154).
`full` is `self.hours`; the second argument is the part of the list still to
be iterated.  The accumulator pair is (`periods`, the open range
`(current_start, current_status)` if any).  The Python expression
`self.hours[hour.hour - 2]` raises `IndexError` when out of range, which the
embedding models as `none`. -/
def outageGo (d : DaySchedule) :
    List HourStatus → List (String × String × PowerStatus) →
    Option (String × PowerStatus) → Option (List (String × String × PowerStatus))
  | [], periods, none => some periods
  | [], periods, some (cs, cst) => some (periods ++ [(cs, "24:00", cst)])
  | hour :: rest, periods, none =>
    if hour.status.has_power then outageGo d rest periods none
    else outageGo d rest periods (some (hour.start_time, hour.status))
  | hour :: rest, periods, some (cs, cst) =>
    if hour.status.has_power then
      if hour.hour > 1 then
        match d.hours[hour.hour - 2]? with
        | none => none
        | some prev => outageGo d rest (periods ++ [(cs, prev.end_time, cst)]) none
      else outageGo d rest (periods ++ [(cs, hour.end_time, cst)]) none
    else outageGo d rest periods (some (cs, cst))

/-- `DaySchedule.get_outage_periods` (models.py lines 134-160). -/
def DaySchedule.get_outage_periods (d : DaySchedule) :
    Option (List (String × String × PowerStatus)) :=
  outageGo d d.hours [] none

/-- `ScheduleData.get_schedule_for_group` would appear here; the claims only
exercise the inline lookup in `get_schedule_for_address`, embedded below. -/
structure SchedulePreset where
  days : List (String × String)
  days_mini : List (String × String)
  schedule_names : List (String × String)
  time_zones : List (String × List String)
  time_types : List (String × String)
deriving Repr

/-- `ScheduleData` (models.py lines 174-180): raw nested mapping
timestamp-string → group → hour-string → status code. -/
structure ScheduleData where
  data : List (String × List (String × List (String × String)))
  update_time : String
  today_timestamp : Int
deriving Repr

/-! ## client.py — Page Extractor -/

/-- Match the regex `re.escape(var_name) + r"\s*=\s*"` at the head of `cs`:
the name literally, then greedy whitespace, `=`, greedy whitespace.  Returns
the length of the match (`match.end()` relative to the match start). -/
def matchAssignLen (cs name : List Char) : Option Nat :=
  if name.isPrefixOf cs then
    let r1 := cs.drop name.length
    let w1 := (r1.takeWhile pyWs).length
    match r1.drop w1 with
    | '=' :: r3 => some (name.length + w1 + 1 + (r3.takeWhile pyWs).length)
    | _ => none
  else none

/-- `pattern.search(html)` for the pattern above: the end position of the
leftmost match, if any (client.py lines 123-128). -/
def findAssignEnd : List Char → List Char → Option Nat
  | [], name => matchAssignLen [] name
  | cs@(_ :: t), name =>
    match matchAssignLen cs name with
    | some n => some n
    | none => (findAssignEnd t name).map (· + 1)

/-- The brace-counting loop of `_extract_js_object` (client.py lines 135-162),
started at the character `html[start]`.  Arguments mirror the Python state:
remaining characters, `depth`, `in_string`, `escape_next`, and the current
loop index `i` (offset from `start`).  Returns the exclusive end offset on
`break`, and `none` when the loop finishes with nonzero depth (the
"Unbalanced braces" error).  A loop that finishes at depth 0 without
breaking leaves `end = start`, i.e. offset 0. -/
def braceScan : List Char → Int → Bool → Bool → Nat → Option Nat
  | [], d, _, _, _ => if d = 0 then some 0 else none
  | c :: cs, d, inStr, esc, i =>
    if esc then braceScan cs d inStr false (i + 1)
    else if c = bslash then braceScan cs d inStr true (i + 1)
    else if c = dquote then braceScan cs d (!inStr) false (i + 1)
    else if inStr then braceScan cs d inStr false (i + 1)
    else if c = lbrace then braceScan cs (d + 1) inStr false (i + 1)
    else if c = rbrace then
      if d - 1 = 0 then some (i + 1) else braceScan cs (d - 1) inStr false (i + 1)
    else braceScan cs d inStr false (i + 1)

/-- The three failure modes of `_extract_js_object`. -/
inductive ExtractError where
  | nameNotFound
  | expectedObject
  | unbalanced
deriving DecidableEq, Repr

/-- `DTEKClient._extract_js_object` (client.py lines 106-167). -/
def extract_js_object (html var_name : List Char) : Except ExtractError (List Char) :=
  match findAssignEnd html var_name with
  | none => .error .nameNotFound
  | some start =>
    match html.drop start with
    | [] => .error .expectedObject
    | c :: rest =>
      if c = lbrace then
        match braceScan (c :: rest) 0 false false 0 with
        | none => .error .unbalanced
        | some e => .ok ((c :: rest).take e)
      else .error .expectedObject

/-- Python `js_code.replace("\\/", "/")`: replace each (non-overlapping,
leftmost-first) backslash-slash pair by a slash (client.py line 179). -/
def unescapeSlashes : List Char → List Char
  | [] => []
  | [c] => [c]
  | c :: c2 :: rest =>
    if c = bslash ∧ c2 = '/' then '/' :: unescapeSlashes rest
    else c :: unescapeSlashes (c2 :: rest)

/-! ### json.loads, modelled as a strict-JSON recursive-descent parser

`_parse_js_object` delegates to the standard library's `json.loads`; the
spec describes that step as parsing strict JSON.  The value type keeps
number lexemes raw (no floating point), and `\uXXXX` escapes are decoded
code-point-wise. -/

inductive Json where
  | null
  | bool (b : Bool)
  | num (raw : String)
  | str (s : String)
  | arr (items : List Json)
  | obj (members : List (String × Json))
deriving Repr

/-- JSON insignificant whitespace (the decoder's `[ \t\n\r]`). -/
def jsonWsChar (c : Char) : Bool :=
  c = ' ' || c = Char.ofNat 9 || c = Char.ofNat 10 || c = Char.ofNat 13

/-- Hex digit value. -/
def hexVal (c : Char) : Option Nat :=
  if '0' ≤ c ∧ c ≤ '9' then some (c.toNat - 48)
  else if 'a' ≤ c ∧ c ≤ 'f' then some (c.toNat - 87)
  else if 'A' ≤ c ∧ c ≤ 'F' then some (c.toNat - 55)
  else none

/-- Single-character string escapes of JSON. -/
def escChar (c : Char) : Option Char :=
  if c = dquote then some dquote
  else if c = bslash then some bslash
  else if c = '/' then some '/'
  else if c = 'b' then some (Char.ofNat 8)
  else if c = 'f' then some (Char.ofNat 12)
  else if c = 'n' then some (Char.ofNat 10)
  else if c = 'r' then some (Char.ofNat 13)
  else if c = 't' then some (Char.ofNat 9)
  else none

/-- Body of a JSON string after its opening quote: decoded characters plus
the input remaining after the closing quote.  Control characters are
rejected (strict mode); `\uXXXX` is decoded as a single code point. -/
def parseJStringChars : List Char → Option (List Char × List Char)
  | [] => none
  | c :: rest =>
    if c = dquote then some ([], rest)
    else if c = bslash then
      match rest with
      | [] => none
      | e :: rest2 =>
        if e = 'u' then
          match rest2 with
          | h1 :: h2 :: h3 :: h4 :: rest3 =>
            match hexVal h1, hexVal h2, hexVal h3, hexVal h4 with
            | some a, some b, some c2, some d2 =>
              (parseJStringChars rest3).map
                (fun p => (Char.ofNat (a * 4096 + b * 256 + c2 * 16 + d2) :: p.1, p.2))
            | _, _, _, _ => none
          | _ => none
        else
          match escChar e with
          | none => none
          | some ch => (parseJStringChars rest2).map (fun p => (ch :: p.1, p.2))
    else if c.toNat < 32 then none
    else (parseJStringChars rest).map (fun p => (c :: p.1, p.2))

/-- The optional fraction part `.digits` of a JSON number; `some ([], cs)`
when absent. -/
def parseFracPart (cs : List Char) : Option (List Char × List Char) :=
  match cs with
  | '.' :: t =>
    let ds := t.takeWhile Char.isDigit
    if ds.isEmpty then none else some ('.' :: ds, t.drop ds.length)
  | _ => some ([], cs)

/-- The optional exponent part `[eE][+-]?digits` of a JSON number. -/
def parseExpPart (cs : List Char) : Option (List Char × List Char) :=
  match cs with
  | e :: t =>
    if e = 'e' ∨ e = 'E' then
      let (sgn, t2) :=
        match t with
        | '+' :: t2 => (['+'], t2)
        | '-' :: t2 => (['-'], t2)
        | _ => (([] : List Char), t)
      let ds := t2.takeWhile Char.isDigit
      if ds.isEmpty then none else some (e :: sgn ++ ds, t2.drop ds.length)
    else some ([], cs)
  | [] => some ([], cs)

/-- A JSON number `-?(0|[1-9][0-9]*)(.digits)?([eE][+-]?digits)?`, returned
as its raw lexeme. -/
def parseNumberFrom (cs : List Char) : Option (Json × List Char) :=
  let (sgn, cs1) :=
    match cs with
    | '-' :: t => (['-'], t)
    | _ => (([] : List Char), cs)
  match cs1 with
  | c :: rest =>
    if c = '0' ∨ ('1' ≤ c ∧ c ≤ '9') then
      let (ip, r1) :=
        if c = '0' then ([c], rest)
        else (c :: rest.takeWhile Char.isDigit, rest.dropWhile Char.isDigit)
      match parseFracPart r1 with
      | none => none
      | some (fp, r2) =>
        match parseExpPart r2 with
        | none => none
        | some (ep, r3) => some (.num (String.mk (sgn ++ ip ++ fp ++ ep)), r3)
    else none
  | [] => none

mutual

/-- A JSON value, preceded by optional whitespace.  `fuel` strictly
decreases on every recursive call; the top level supplies enough. -/
def parseValue : Nat → List Char → Option (Json × List Char)
  | 0, _ => none
  | fuel + 1, cs =>
    match cs.dropWhile jsonWsChar with
    | [] => none
    | c :: rest =>
      if c = dquote then
        (parseJStringChars rest).map (fun p => (.str (String.mk p.1), p.2))
      else if c = lbrace then parseObjRest fuel rest
      else if c = '[' then parseArrRest fuel rest
      else if c = 't' then
        if rest.take 3 = ['r', 'u', 'e'] then some (.bool true, rest.drop 3) else none
      else if c = 'f' then
        if rest.take 4 = ['a', 'l', 's', 'e'] then some (.bool false, rest.drop 4) else none
      else if c = 'n' then
        if rest.take 3 = ['u', 'l', 'l'] then some (.null, rest.drop 3) else none
      else parseNumberFrom (c :: rest)

/-- The inside of an object after the opening brace. -/
def parseObjRest : Nat → List Char → Option (Json × List Char)
  | 0, _ => none
  | fuel + 1, cs =>
    match cs.dropWhile jsonWsChar with
    | [] => none
    | c :: rest =>
      if c = rbrace then some (.obj [], rest)
      else (parseMembers fuel (c :: rest)).map (fun p => (.obj p.1, p.2))

/-- One or more `"key": value` members, ended by a closing brace. -/
def parseMembers : Nat → List Char → Option (List (String × Json) × List Char)
  | 0, _ => none
  | fuel + 1, cs =>
    match cs.dropWhile jsonWsChar with
    | [] => none
    | c :: rest =>
      if c = dquote then
        match parseJStringChars rest with
        | none => none
        | some (key, r1) =>
          match r1.dropWhile jsonWsChar with
          | ':' :: r2 =>
            match parseValue fuel r2 with
            | none => none
            | some (v, r3) =>
              match r3.dropWhile jsonWsChar with
              | ',' :: r4 =>
                (parseMembers fuel r4).map
                  (fun p => ((String.mk key, v) :: p.1, p.2))
              | c2 :: r4 =>
                if c2 = rbrace then some ([(String.mk key, v)], r4) else none
              | [] => none
          | _ => none
      else none

/-- The inside of an array after the opening bracket. -/
def parseArrRest : Nat → List Char → Option (Json × List Char)
  | 0, _ => none
  | fuel + 1, cs =>
    match cs.dropWhile jsonWsChar with
    | [] => none
    | c :: rest =>
      if c = ']' then some (.arr [], rest)
      else (parseItems fuel (c :: rest)).map (fun p => (.arr p.1, p.2))

/-- One or more array items, ended by a closing bracket. -/
def parseItems : Nat → List Char → Option (List Json × List Char)
  | 0, _ => none
  | fuel + 1, cs =>
    match parseValue fuel cs with
    | none => none
    | some (v, r1) =>
      match r1.dropWhile jsonWsChar with
      | ',' :: r2 => (parseItems fuel r2).map (fun p => (v :: p.1, p.2))
      | c :: r2 => if c = ']' then some ([v], r2) else none
      | [] => none

end

/-- `json.loads`: parse one JSON value and require only whitespace after it. -/
def json_loads (s : String) : Option Json :=
  match parseValue (2 * s.data.length + 8) s.data with
  | none => none
  | some (v, rest) => if (rest.dropWhile jsonWsChar).isEmpty then some v else none

/-- `DTEKClient._parse_js_object` (client.py lines 169-184): unescape `\/`,
then parse as JSON; `DTEKClientError` on a decode failure. -/
def parse_js_object (js_code : String) : Except String Json :=
  let cleaned := String.mk (unescapeSlashes js_code.data)
  match json_loads cleaned with
  | none => .error "Failed to parse JavaScript object"
  | some v => .ok v

/-- The response-interpretation tail of `DTEKClient.fetch_address_group`
(client.py lines 279-292).  The parsed JSON response is modelled by the
truthiness of its `result` field and its `data` mapping house-number →
`sub_type_reason` list (a missing `sub_type_reason` key is the default
empty list). -/
def fetch_address_group_result (result : Bool)
    (data : List (String × List String)) (house : String) : Option String :=
  if !result then none
  else
    match List.lookup house data with
    | none => none
    | some groups =>
      match groups with
      | [] => none
      | g :: _ => some g

/-! ## client.py — Schedule Builder -/

/-- Failure modes of `get_schedule_for_address` past the page fetch:
the explicit `DTEKClientError` for an unresolved group, and the Python
`ValueError`s from `int(timestamp_str)` and `PowerStatus(status_key)`. -/
inductive BuildError where
  | addressNotFound (msg : String)
  | invalidTimestamp (s : String)
  | invalidStatus (s : String)
deriving DecidableEq, Repr

/-- The message of the `DTEKClientError` raised at client.py lines 369-372. -/
def addressNotFoundMsg (address : Address) : String :=
  "Could not find power group for address: " ++ address.city ++ ", " ++
    address.street ++ ", " ++ address.house

/-- The body of the hour loop of `get_schedule_for_address`
(client.py lines 385-393) for one `hour_str = str(h)`, `1 ≤ h ≤ 24`. -/
def buildHour (group_schedule : List (String × String))
    (time_zones : List (String × List String)) (h : Nat) :
    Except String HourStatus :=
  let hourStr := toString h
  let status_key := (List.lookup hourStr group_schedule).getD "yes"
  match PowerStatus.fromString status_key with
  | none => .error status_key
  | some status =>
    let fallback := pad2 (h - 1) ++ "-" ++ hourStr
    let time_info := (List.lookup hourStr time_zones).getD [fallback]
    let time_range := time_info.headD fallback
    .ok ⟨h, status, time_range⟩

/-- The hour numbers `range(1, 25)` iterated by the hour loop. -/
def hourNumbers : List Nat := (List.range 24).map (· + 1)

/-- The full hour loop (client.py lines 384-393): 24 `HourStatus` values,
aborting at the first invalid status code. -/
def buildHours (group_schedule : List (String × String))
    (time_zones : List (String × List String)) :
    Except String (List HourStatus) :=
  mapOrFailE (buildHour group_schedule time_zones) hourNumbers

/-- One iteration of the day loop of `get_schedule_for_address`
(client.py lines 377-406).  `isoweekday` abstracts
`datetime.fromtimestamp(ts).isoweekday()` (a fixed function of the
timestamp for the machine's fixed time zone). -/
def buildDay (preset : SchedulePreset) (group : String) (isoweekday : Int → Nat)
    (entry : String × List (String × List (String × String))) :
    Except BuildError DaySchedule :=
  match pyInt entry.1 with
  | none => .error (.invalidTimestamp entry.1)
  | some ts =>
    let group_schedule := (List.lookup group entry.2).getD []
    match buildHours group_schedule preset.time_zones with
    | .error key => .error (.invalidStatus key)
    | .ok hours =>
      let day_num := toString (isoweekday ts)
      let day_name := (List.lookup day_num preset.days).getD ""
      .ok ⟨ts, day_name, group, hours⟩

/-- The sort key of `result.sort(key=lambda d: d.date)`. -/
def dateLe (a b : DaySchedule) : Prop := a.date ≤ b.date

instance : DecidableRel dateLe := fun a b => Int.decLe a.date b.date

instance : IsTotal DaySchedule dateLe := ⟨fun a b => Int.le_total a.date b.date⟩

instance : IsTrans DaySchedule dateLe := ⟨fun _ _ _ => Int.le_trans⟩

/-- `DTEKClient.get_schedule_for_address` (client.py lines 351-411) after the
page fetch: `group?` is the value returned by `fetch_address_group`.  The
final `result.sort(key=lambda d: d.date)` is Python's stable sort by date;
a stable sort's output is uniquely determined by the key order and the
original order, so the (stable) insertion sort models it exactly. -/
def get_schedule_for_address (preset : SchedulePreset) (schedule_data : ScheduleData)
    (address : Address) (group? : Option String) (isoweekday : Int → Nat) :
    Except BuildError (List DaySchedule) :=
  match group? with
  | none => .error (.addressNotFound (addressNotFoundMsg address))
  | some group =>
    match mapOrFailE (buildDay preset group isoweekday) schedule_data.data with
    | .error e => .error e
    | .ok result => .ok (result.insertionSort dateLe)

/-! ## Specification-level definitions

These follow the words of the spec and the claims, to be compared with the
embedded code above. -/

/-- Depth-scanner step, following the spec's description of
`extractNamedObject`: state is (brace depth outside strings, inside-string
flag, escape flag). -/
def scanStep : Int × Bool × Bool → Char → Int × Bool × Bool
  | (d, inStr, esc), c =>
    if esc then (d, inStr, false)
    else if c = bslash then (d, inStr, true)
    else if c = dquote then (d, !inStr, false)
    else if inStr then (d, inStr, false)
    else if c = lbrace then (d + 1, inStr, false)
    else if c = rbrace then (d - 1, inStr, false)
    else (d, inStr, false)

/-- The brace depth after scanning the first `k` characters of `cs` from the
initial state: braces inside double-quoted literals (honouring backslash
escapes) are not counted. -/
def scanDepth (cs : List Char) (k : Nat) : Int :=
  ((cs.take k).foldl scanStep (0, false, false)).1

/-- `e` is the position just after the brace matching an opening brace at
position 0 of `cs`: the first point at which the depth returns to zero. -/
def ClosesAt (cs : List Char) (e : Nat) : Prop :=
  1 ≤ e ∧ e ≤ cs.length ∧ scanDepth cs e = 0 ∧
    ∀ k, 1 ≤ k → k < e → scanDepth cs k ≠ 0

instance (cs : List Char) (e : Nat) : Decidable (ClosesAt cs e) := by
  unfold ClosesAt; infer_instance

/-- Spec-level outage periods over per-hour statuses, starting at hour `h`:
each maximal run of consecutive non-powered hours becomes one
`(start, end, status)` range carrying the first hour's status, and a run
reaching the last hour of a 24-hour day ends at `"24:00"` (= `clock 24`). -/
def specPeriodsFrom : Nat → List PowerStatus → List (String × String × PowerStatus)
  | _, [] => []
  | h, s :: rest =>
    if s.has_power then specPeriodsFrom (h + 1) rest
    else
      let k := (rest.takeWhile (fun t => !t.has_power)).length
      (clock (h - 1), clock (h + k), s) :: specPeriodsFrom (h + k + 2) (rest.drop (k + 1))
termination_by _ sts => sts.length
decreasing_by
  all_goals simp_wf
  all_goals omega

/-- Spec-level outage periods of a 24-hour day (hours numbered from 1). -/
def specPeriods (sts : List PowerStatus) : List (String × String × PowerStatus) :=
  specPeriodsFrom 1 sts

/-- Proof-internal state machine bridging `outageGo` and `specPeriodsFrom`:
the hour number of the next status, the remaining statuses, and the open
range if one is in progress. -/
def specGoSt : Nat → List PowerStatus → Option (String × PowerStatus) →
    List (String × String × PowerStatus)
  | _, [], none => []
  | _, [], some (cs, cst) => [(cs, "24:00", cst)]
  | h, s :: rest, none =>
    if s.has_power then specGoSt (h + 1) rest none
    else specGoSt (h + 1) rest (some (clock (h - 1), s))
  | h, s :: rest, some (cs, cst) =>
    if s.has_power then (cs, clock (h - 1), cst) :: specGoSt (h + 1) rest none
    else specGoSt (h + 1) rest (some (cs, cst))

/-! ## Concrete fixtures used by witnesses and examples -/

/-- A 24-hour day, hours numbered 1..24 in order, with the given statuses. -/
def standardDay (sts : List PowerStatus) : DaySchedule :=
  ⟨0, "", "GPV", (List.range 24).map (fun i => ⟨i + 1, sts.getD i .YES, ""⟩)⟩

/-- 24 statuses that are `no` exactly at the listed hour numbers. -/
def statusesOffAt (off : List Nat) : List PowerStatus :=
  (List.range 24).map (fun i => if (i + 1) ∈ off then .NO else .YES)

/-- 24 statuses: hour 3 is `no`, hour 4 is `maybe`, the rest `yes`. -/
def mixedStatuses : List PowerStatus :=
  (List.range 24).map
    (fun i => if i + 1 = 3 then .NO else if i + 1 = 4 then .MAYBE else .YES)

/-- The fact data of the spec's testable property:
`{"data":{"1700000000":{"G1":{"1":"no","2":"yes"}}}}`. -/
def factSD : ScheduleData :=
  ⟨[("1700000000", [("G1", [("1", "no"), ("2", "yes")])])], "", 0⟩

/-- Fact data with two timestamp keys out of date order. -/
def twoDaySD : ScheduleData :=
  ⟨[("1700086400", [("G1", [("1", "no")])]), ("1700000000", [("G1", [("2", "no")])])], "", 0⟩

/-- An empty preset: every lookup falls back to its default. -/
def emptyPreset : SchedulePreset := ⟨[], [], [], [], []⟩

/-- A throwaway address for builder fixtures. -/
def dummyAddr : Address := ⟨"c", "s", "h"⟩

/-- The schedule built over `twoDaySD` (used by the C9 witness). -/
def twoDayOut : List DaySchedule :=
  (get_schedule_for_address emptyPreset twoDaySD dummyAddr (some "G1")
    (fun _ => 1)).toOption.getD []

/-! ## Helper lemmas -/

/-- Characterisation of a successful `mapOrFailE`: same length, and the step
succeeds pointwise. -/
theorem mapOrFailE_ok {α β ε : Type} {f : α → Except ε β} :
    ∀ {xs : List α} {l : List β}, mapOrFailE f xs = .ok l →
      l.length = xs.length ∧
        ∀ (i : Nat) (a : α), xs[i]? = some a → ∃ b, l[i]? = some b ∧ f a = .ok b := by
  intro xs
  induction xs with
  | nil =>
    intro l hl
    simp only [mapOrFailE] at hl
    cases hl
    exact ⟨rfl, by intro i a h; simp at h⟩
  | cons a as ih =>
    intro l hl
    simp only [mapOrFailE] at hl
    cases hfa : f a with
    | error e => rw [hfa] at hl; cases hl
    | ok b =>
      rw [hfa] at hl
      cases hrec : mapOrFailE f as with
      | error e => rw [hrec] at hl; cases hl
      | ok bs =>
        rw [hrec] at hl
        cases hl
        obtain ⟨hlen, hget⟩ := ih hrec
        refine ⟨by simp [hlen], ?_⟩
        intro i a' ha'
        cases i with
        | zero =>
          simp at ha'
          exact ⟨b, by simp, ha' ▸ hfa⟩
        | succ j =>
          simp only [List.getElem?_cons_succ] at ha' ⊢
          exact hget j a' ha'

/-- The hour list is `[1, …, 24]`: element `i` is `i + 1`. -/
theorem hourNumbers_getElem : ∀ i, i < 24 → hourNumbers[i]? = some (i + 1) := by
  decide

/-! ## Claims -/

/-- C7: a string whose comma-split yields exactly three trimmed, non-empty
segments parses to an `Address` with those segments as city, street and
house in order; any other comma-split segment count makes
`Address.from_string` fail. -/
theorem claim_C7 :
    (∀ (s : String) (c st h : List Char),
       (pySplitComma s.data).map pyStrip = [c, st, h] →
       c ≠ [] → st ≠ [] → h ≠ [] →
       Address.from_string s = some ⟨String.mk c, String.mk st, String.mk h⟩) ∧
    (∀ s : String, (pySplitComma s.data).length ≠ 3 →
       Address.from_string s = none) := by
  constructor
  · intro s c st h hsplit _ _ _
    have h2 : (pySplitComma s.data).map (fun p => String.mk (pyStrip p)) =
        [String.mk c, String.mk st, String.mk h] := by
      have h3 := congrArg (List.map String.mk) hsplit
      simpa [List.map_map, Function.comp] using h3
    simp only [Address.from_string, h2]
  · intro s hlen
    simp only [Address.from_string]
    rcases hps : (pySplitComma s.data).map (fun p => String.mk (pyStrip p)) with
      _ | ⟨a, _ | ⟨b, _ | ⟨c, _ | ⟨d, e⟩⟩⟩⟩
    all_goals first
      | rfl
      | exact absurd (by simpa using congrArg List.length hps) hlen

/-- Witness for C7 at a concrete three-segment address string. -/
theorem claim_C7_witness :
    Address.from_string "Kyiv, Khreshchatyk, 1" =
      some ⟨String.mk "Kyiv".data, String.mk "Khreshchatyk".data, String.mk "1".data⟩ :=
  claim_C7.1 "Kyiv, Khreshchatyk, 1" "Kyiv".data "Khreshchatyk".data "1".data
    (by decide) (by decide) (by decide) (by decide)

/-- C5: the response interpretation of `fetch_address_group` yields `none`
(not an error) exactly when the `result` field is falsy, or the house has no
entry in the data, or the entry's reason-code list is empty; otherwise it
returns the first reason code. -/
theorem claim_C5 :
    ∀ (result : Bool) (data : List (String × List String)) (house : String),
      (fetch_address_group_result result data house = none ↔
        result = false ∨ List.lookup house data = none ∨
          List.lookup house data = some []) ∧
      (∀ g gs, result = true → List.lookup house data = some (g :: gs) →
        fetch_address_group_result result data house = some g) := by
  intro result data house
  constructor
  · cases result with
    | false => simp [fetch_address_group_result]
    | true =>
      cases hl : List.lookup house data with
      | none => simp [fetch_address_group_result, hl]
      | some groups => cases groups <;> simp [fetch_address_group_result, hl]
  · intro g gs hres hl
    subst hres
    simp [fetch_address_group_result, hl]

/-- Witness for C5: a truthy response whose house entry has reason codes. -/
theorem claim_C5_witness :
    fetch_address_group_result true [("7", ["G2", "G9"])] "7" = some "G2" :=
  (claim_C5 true [("7", ["G2", "G9"])] "7").2 "G2" ["G9"] rfl (by decide)

/-- C8: when group resolution yields none, `get_schedule_for_address` fails
with the address-not-found error whose message names the address's city,
street and house, rather than returning a result. -/
theorem claim_C8 :
    ∀ (preset : SchedulePreset) (sd : ScheduleData) (address : Address)
      (wk : Int → Nat),
      get_schedule_for_address preset sd address none wk =
        .error (.addressNotFound (addressNotFoundMsg address)) ∧
      (∃ p q, (addressNotFoundMsg address).data = p ++ address.city.data ++ q) ∧
      (∃ p q, (addressNotFoundMsg address).data = p ++ address.street.data ++ q) ∧
      (∃ p q, (addressNotFoundMsg address).data = p ++ address.house.data ++ q) := by
  intro preset sd address wk
  refine ⟨rfl, ?_, ?_, ?_⟩
  · exact ⟨"Could not find power group for address: ".data,
      (", " ++ address.street ++ ", " ++ address.house).data,
      by simp [addressNotFoundMsg, String.data_append]⟩
  · exact ⟨("Could not find power group for address: " ++ address.city ++ ", ").data,
      (", " ++ address.house).data,
      by simp [addressNotFoundMsg, String.data_append]⟩
  · exact ⟨("Could not find power group for address: " ++ address.city ++ ", " ++
        address.street ++ ", ").data, [],
      by simp [addressNotFoundMsg, String.data_append]⟩

/-- C1 counterexample: with the hour-1 entry absent from the time-zone table,
the built time range is `"00-1"` — the end hour is not zero-padded — so it
differs from the claimed `"{hour-1:02d}-{hour:02d}"` (= `"00-01"`). -/
theorem claim_C1_counterexample :
    (buildHours [] []).map (fun l => (l.headD ⟨0, .YES, ""⟩).time_range) = .ok "00-1" ∧
    ("00-1" : String) ≠ pad2 0 ++ "-" ++ pad2 1 := by
  exact ⟨rfl, by decide⟩

/-- C1 (amended): for every hour 1..24 whose entry in the preset's per-hour
time-zone table is absent or empty, the `HourStatus` `time_range` equals
`pad2 (hour-1) ++ "-" ++ toString hour` — the start hour zero-padded to two
digits, the end hour rendered without padding (so hour 1 yields `"00-1"`;
for hours 10..24 this coincides with the claimed two-digit form). -/
theorem claim_C1 :
    ∀ (gs : List (String × String)) (tz : List (String × List String))
      (l : List HourStatus) (h : Nat),
      buildHours gs tz = .ok l → 1 ≤ h → h ≤ 24 →
      (List.lookup (toString h) tz = none ∨ List.lookup (toString h) tz = some []) →
      ∃ hs, l[h - 1]? = some hs ∧
        hs.time_range = pad2 (h - 1) ++ "-" ++ toString h := by
  intro gs tz l h hok h1 h24 htz
  obtain ⟨-, hget⟩ := mapOrFailE_ok hok
  have hidx : hourNumbers[h - 1]? = some h := by
    have := hourNumbers_getElem (h - 1) (by omega)
    have he : h - 1 + 1 = h := by omega
    rw [he] at this
    exact this
  obtain ⟨b, hbl, hfb⟩ := hget (h - 1) h hidx
  refine ⟨b, hbl, ?_⟩
  rcases htz with htz | htz <;>
    · simp only [buildHour, htz, Option.getD_none, Option.getD_some, List.headD_nil,
        List.headD_cons] at hfb
      cases hfs : PowerStatus.fromString ((List.lookup (toString h) gs).getD "yes") with
      | none => rw [hfs] at hfb; cases hfb
      | some status => rw [hfs] at hfb; cases hfb; rfl

/-- Witness for C1: the empty time-zone table at hour 1. -/
theorem claim_C1_witness :
    ∃ hs, ((buildHours [] []).toOption.getD [])[0]? = some hs ∧
      hs.time_range = pad2 0 ++ "-" ++ toString 1 := by
  have h := claim_C1 [] [] ((buildHours [] []).toOption.getD []) 1
    rfl (by decide) (by decide) (Or.inl rfl)
  simpa using h

/-- C4: an hour whose status code is absent from the resolved group's day
mapping defaults to `yes` (power on); and on the spec's concrete fact data
with group `G1`, hour 1 is off, hour 2 is on, and hours 3..24 are on. -/
theorem claim_C4 :
    (∀ (gs : List (String × String)) (tz : List (String × List String))
       (l : List HourStatus) (h : Nat),
       buildHours gs tz = .ok l → 1 ≤ h → h ≤ 24 →
       List.lookup (toString h) gs = none →
       ∃ hs, l[h - 1]? = some hs ∧ hs.status = PowerStatus.YES) ∧
    ((get_schedule_for_address emptyPreset factSD dummyAddr (some "G1")
        (fun _ => 1)).map (fun l => l.map (fun d => d.hours.map (·.status))) =
      .ok [PowerStatus.NO :: PowerStatus.YES :: List.replicate 22 PowerStatus.YES]) := by
  constructor
  · intro gs tz l h hok h1 h24 hgs
    obtain ⟨-, hget⟩ := mapOrFailE_ok hok
    have hidx : hourNumbers[h - 1]? = some h := by
      have := hourNumbers_getElem (h - 1) (by omega)
      have he : h - 1 + 1 = h := by omega
      rw [he] at this
      exact this
    obtain ⟨b, hbl, hfb⟩ := hget (h - 1) h hidx
    refine ⟨b, hbl, ?_⟩
    simp only [buildHour, hgs, Option.getD_none] at hfb
    cases hfb
    rfl
  · rfl

/-- Witness for C4: hour 1 absent from the group mapping defaults to on. -/
theorem claim_C4_witness :
    ∃ hs, ((buildHours [("2", "no")] []).toOption.getD [])[0]? = some hs ∧
      hs.status = PowerStatus.YES := by
  have h := claim_C4.1 [("2", "no")] [] ((buildHours [("2", "no")] []).toOption.getD [])
    1 rfl (by decide) (by decide) (by decide)
  simpa using h

/-- C6: `parse_js_object` first unescapes escaped forward slashes and then
parses the result as strict JSON, succeeding exactly when the unescaped
text parses; concretely, the unescaping turns `http:\/\/x` into `http://x`,
and the spec's example object parses to a value whose url field is
`http://x`. -/
theorem claim_C6 :
    (∀ (s : String) (v : Json),
       parse_js_object s = .ok v ↔
         json_loads (String.mk (unescapeSlashes s.data)) = some v) ∧
    (∀ s : String,
       parse_js_object s = .error "Failed to parse JavaScript object" ↔
         json_loads (String.mk (unescapeSlashes s.data)) = none) ∧
    String.mk (unescapeSlashes "http:\\/\\/x".data) = "http://x" ∧
    parse_js_object "\x7b\"url\":\"http:\\/\\/x\"\x7d" =
      .ok (.obj [("url", .str "http://x")]) := by
  refine ⟨?_, ?_, rfl, rfl⟩
  · intro s v
    simp only [parse_js_object]
    cases h : json_loads (String.mk (unescapeSlashes s.data)) with
    | none => simp
    | some w => simp
  · intro s
    simp only [parse_js_object]
    cases h : json_loads (String.mk (unescapeSlashes s.data)) with
    | none => simp
    | some w => simp

/-- Witness for C6: the iff applied at the spec's concrete example. -/
theorem claim_C6_witness :
    json_loads (String.mk (unescapeSlashes "\x7b\"url\":\"http:\\/\\/x\"\x7d".data)) =
      some (.obj [("url", .str "http://x")]) :=
  (claim_C6.1 "\x7b\"url\":\"http:\\/\\/x\"\x7d" (.obj [("url", .str "http://x")])).mp rfl

/-- A successful `buildDay` records the parsed timestamp key as the date. -/
theorem buildDay_date {preset : SchedulePreset} {group : String} {wk : Int → Nat}
    {e : String × List (String × List (String × String))} {d : DaySchedule}
    (h : buildDay preset group wk e = .ok d) : pyInt e.1 = some d.date := by
  cases hp : pyInt e.1 with
  | none => simp only [buildDay, hp] at h; cases h
  | some ts =>
    simp only [buildDay, hp] at h
    cases hb : buildHours ((List.lookup group e.2).getD []) preset.time_zones with
    | error k => rw [hb] at h; cases h
    | ok hours => rw [hb] at h; cases h; rfl

/-- The dates of a successfully built day list are the parsed timestamp keys
in iteration order. -/
theorem buildDays_dates {preset : SchedulePreset} {group : String} {wk : Int → Nat} :
    ∀ {entries : List (String × List (String × List (String × String)))}
      {l : List DaySchedule},
      mapOrFailE (buildDay preset group wk) entries = .ok l →
      l.map (·.date) = entries.filterMap (fun kv => pyInt kv.1) := by
  intro entries
  induction entries with
  | nil =>
    intro l h
    simp only [mapOrFailE] at h
    cases h
    rfl
  | cons e es ih =>
    intro l h
    simp only [mapOrFailE] at h
    cases hd : buildDay preset group wk e with
    | error err => rw [hd] at h; cases h
    | ok d =>
      rw [hd] at h
      cases hrec : mapOrFailE (buildDay preset group wk) es with
      | error err => rw [hrec] at h; cases h
      | ok ds =>
        rw [hrec] at h
        cases h
        simp [List.filterMap_cons, buildDay_date hd, ih hrec]

/-- C9: a successful `get_schedule_for_address` returns exactly one
`DaySchedule` per timestamp key of the raw schedule data (same count, and
the returned dates are a permutation of the parsed keys), sorted by date
ascending regardless of the order of the keys. -/
theorem claim_C9 :
    ∀ (preset : SchedulePreset) (sd : ScheduleData) (address : Address)
      (group : String) (wk : Int → Nat) (l : List DaySchedule),
      get_schedule_for_address preset sd address (some group) wk = .ok l →
      l.length = sd.data.length ∧
      (l.map (·.date)).Perm (sd.data.filterMap (fun kv => pyInt kv.1)) ∧
      List.Sorted dateLe l := by
  intro preset sd address group wk l h
  simp only [get_schedule_for_address] at h
  cases hm : mapOrFailE (buildDay preset group wk) sd.data with
  | error e => rw [hm] at h; cases h
  | ok result =>
    rw [hm] at h
    cases h
    refine ⟨?_, ?_, List.sorted_insertionSort dateLe result⟩
    · rw [List.length_insertionSort]
      exact (mapOrFailE_ok hm).1
    · have hperm := (List.perm_insertionSort dateLe result).map (·.date)
      rw [buildDays_dates hm] at hperm
      exact hperm

/-- Witness for C9: two timestamp keys given out of order come back as two
day schedules sorted by date. -/
theorem claim_C9_witness :
    twoDayOut.length = twoDaySD.data.length ∧
    (twoDayOut.map (·.date)).Perm (twoDaySD.data.filterMap (fun kv => pyInt kv.1)) ∧
    List.Sorted dateLe twoDayOut :=
  claim_C9 emptyPreset twoDaySD dummyAddr "G1" (fun _ => 1) twoDayOut rfl

/-- `specGoSt` agrees with `specPeriodsFrom`: with no open range it produces
exactly the spec periods, and with an open range it first closes that range
at the end of the current non-powered run. -/
theorem specGoSt_eq :
    ∀ (sts : List PowerStatus) (h : Nat), h + sts.length = 25 →
      (specGoSt h sts none = specPeriodsFrom h sts) ∧
      (∀ cs cst,
        specGoSt h sts (some (cs, cst)) =
          (cs, clock (h + (sts.takeWhile (fun t => !t.has_power)).length - 1), cst) ::
            specPeriodsFrom (h + (sts.takeWhile (fun t => !t.has_power)).length + 1)
              (sts.drop ((sts.takeWhile (fun t => !t.has_power)).length + 1))) := by
  intro sts
  induction sts with
  | nil =>
    intro h hlen
    have h25 : h = 25 := by simpa using hlen
    subst h25
    refine ⟨by simp [specGoSt, specPeriodsFrom], ?_⟩
    intro cs cst
    simp only [specGoSt, List.takeWhile_nil, List.length_nil, List.drop_nil]
    have hc : clock (25 + 0 - 1) = "24:00" := by decide
    rw [hc]
    simp [specPeriodsFrom]
  | cons s rest ih =>
    intro h hlen
    have hlen' : (h + 1) + rest.length = 25 := by
      simp only [List.length_cons] at hlen
      omega
    obtain ⟨ih1, ih2⟩ := ih (h + 1) hlen'
    constructor
    · by_cases hsp : s.has_power
      · have l1 : specGoSt h (s :: rest) none = specGoSt (h + 1) rest none := by
          simp [specGoSt, hsp]
        have r1 : specPeriodsFrom h (s :: rest) = specPeriodsFrom (h + 1) rest := by
          simp [specPeriodsFrom, hsp]
        rw [l1, r1, ih1]
      · have l1 : specGoSt h (s :: rest) none =
            specGoSt (h + 1) rest (some (clock (h - 1), s)) := by
          simp [specGoSt, hsp]
        have r1 : specPeriodsFrom h (s :: rest) =
            (clock (h - 1),
              clock (h + (rest.takeWhile (fun t => !t.has_power)).length), s) ::
              specPeriodsFrom (h + (rest.takeWhile (fun t => !t.has_power)).length + 2)
                (rest.drop ((rest.takeWhile (fun t => !t.has_power)).length + 1)) := by
          simp [specPeriodsFrom, hsp]
        rw [l1, ih2, r1]
        have e1 : h + 1 + (rest.takeWhile (fun t => !t.has_power)).length - 1 =
            h + (rest.takeWhile (fun t => !t.has_power)).length := by omega
        have e2 : h + 1 + (rest.takeWhile (fun t => !t.has_power)).length + 1 =
            h + (rest.takeWhile (fun t => !t.has_power)).length + 2 := by omega
        rw [e1, e2]
    · intro cs cst
      by_cases hsp : s.has_power
      · have l1 : specGoSt h (s :: rest) (some (cs, cst)) =
            (cs, clock (h - 1), cst) :: specGoSt (h + 1) rest none := by
          simp [specGoSt, hsp]
        have ht : (s :: rest).takeWhile (fun t => !t.has_power) = [] := by
          simp [List.takeWhile_cons, hsp]
        rw [l1, ih1, ht]
        simp only [List.length_nil, Nat.add_zero, List.drop_succ_cons, List.drop_zero]
      · have l1 : specGoSt h (s :: rest) (some (cs, cst)) =
            specGoSt (h + 1) rest (some (cs, cst)) := by
          simp [specGoSt, hsp]
        have ht : (s :: rest).takeWhile (fun t => !t.has_power) =
            s :: rest.takeWhile (fun t => !t.has_power) := by
          simp [List.takeWhile_cons, hsp]
        rw [l1, ih2, ht]
        have e1 : h + 1 + (rest.takeWhile (fun t => !t.has_power)).length - 1 =
            h + (s :: rest.takeWhile (fun t => !t.has_power)).length - 1 := by
          simp only [List.length_cons]
          omega
        have e2 : h + 1 + (rest.takeWhile (fun t => !t.has_power)).length + 1 =
            h + (s :: rest.takeWhile (fun t => !t.has_power)).length + 1 := by
          simp only [List.length_cons]
          omega
        rw [e1, e2]
        simp only [List.length_cons, List.drop_succ_cons]

/-- On a well-formed hour list (24 entries, hour of entry `i` is `i + 1`),
the outage-scan loop computes `specGoSt` over the statuses, for every
suffix, accumulator and open-range state. -/
theorem outageGo_spec (d : DaySchedule)
    (hlen : d.hours.length = 24)
    (hhour : ∀ (i : Nat) (hi : i < d.hours.length), (d.hours.get ⟨i, hi⟩).hour = i + 1) :
    ∀ (tl : List HourStatus) (j : Nat) (periods : List (String × String × PowerStatus))
      (cur : Option (String × PowerStatus)),
      d.hours.drop j = tl → (cur.isSome = true → 1 ≤ j) →
      outageGo d tl periods cur =
        some (periods ++ specGoSt (j + 1) (tl.map (·.status)) cur) := by
  intro tl
  induction tl with
  | nil =>
    intro j periods cur hdrop hcur
    cases cur with
    | none => simp [outageGo, specGoSt]
    | some p =>
      obtain ⟨cs, cst⟩ := p
      simp [outageGo, specGoSt]
  | cons hour rest ih =>
    intro j periods cur hdrop hcur
    have hlend : (d.hours.drop j).length = d.hours.length - j := List.length_drop _ _
    rw [hdrop] at hlend
    have hj : j < d.hours.length := by
      simp only [List.length_cons] at hlend
      omega
    have hget : d.hours[j]? = some hour := by
      have h0 : (d.hours.drop j)[0]? = d.hours[j + 0]? := List.getElem?_drop d.hours j 0
      rw [hdrop] at h0
      simpa using h0.symm
    have hgv : d.hours.get ⟨j, hj⟩ = hour := by
      have h1 : d.hours[j]? = some (d.hours.get ⟨j, hj⟩) := by
        rw [List.getElem?_eq_getElem hj]
        rfl
      rw [hget] at h1
      exact (Option.some.injEq _ _ ▸ h1).symm
    have hhj : hour.hour = j + 1 := by
      rw [← hgv]
      exact hhour j hj
    have hdrop' : d.hours.drop (j + 1) = rest := by
      have h1 := List.drop_drop 1 j d.hours
      rw [hdrop] at h1
      have h2 : (hour :: rest).drop 1 = rest := rfl
      rw [h2] at h1
      exact h1.symm
    cases cur with
    | none =>
      by_cases hsp : hour.status.has_power
      · have l1 : outageGo d (hour :: rest) periods none = outageGo d rest periods none := by
          simp [outageGo, hsp]
        rw [l1, ih (j + 1) periods none hdrop' (by simp)]
        have r1 : specGoSt (j + 1) ((hour :: rest).map (·.status)) none =
            specGoSt (j + 1 + 1) (rest.map (·.status)) none := by
          simp [specGoSt, hsp]
        rw [r1]
      · have l1 : outageGo d (hour :: rest) periods none =
            outageGo d rest periods (some (hour.start_time, hour.status)) := by
          simp [outageGo, hsp]
        rw [l1, ih (j + 1) periods (some (hour.start_time, hour.status)) hdrop' (by simp)]
        have hst : hour.start_time = clock j := by
          simp [HourStatus.start_time, hhj]
        have r1 : specGoSt (j + 1) ((hour :: rest).map (·.status)) none =
            specGoSt (j + 1 + 1) (rest.map (·.status)) (some (clock j, hour.status)) := by
          simp [specGoSt, hsp]
        rw [r1, hst]
    | some p =>
      obtain ⟨cs, cst⟩ := p
      have hj1 : 1 ≤ j := hcur rfl
      by_cases hsp : hour.status.has_power
      · have hj2 : hour.hour > 1 := by omega
        have hjm : j - 1 < d.hours.length := by omega
        have hprev : d.hours[hour.hour - 2]? = some d.hours[j - 1] := by
          have hidx : hour.hour - 2 = j - 1 := by omega
          rw [hidx, List.getElem?_eq_getElem hjm]
        have hprevhour : d.hours[j - 1].hour = j := by
          have h1 := hhour (j - 1) hjm
          simp only [List.get_eq_getElem] at h1
          omega
        have hprevend : d.hours[j - 1].end_time = clock j := by
          have hj24 : j < 24 := by omega
          simp [HourStatus.end_time, hprevhour, hj24]
        have l1 : outageGo d (hour :: rest) periods (some (cs, cst)) =
            outageGo d rest (periods ++ [(cs, clock j, cst)]) none := by
          simp [outageGo, hsp, hj2, hprev, hprevend]
        rw [l1, ih (j + 1) (periods ++ [(cs, clock j, cst)]) none hdrop' (by simp)]
        have r1 : specGoSt (j + 1) ((hour :: rest).map (·.status)) (some (cs, cst)) =
            (cs, clock j, cst) :: specGoSt (j + 1 + 1) (rest.map (·.status)) none := by
          simp [specGoSt, hsp]
        rw [r1]
        simp [List.append_assoc]
      · have l1 : outageGo d (hour :: rest) periods (some (cs, cst)) =
            outageGo d rest periods (some (cs, cst)) := by
          simp [outageGo, hsp]
        rw [l1, ih (j + 1) periods (some (cs, cst)) hdrop' (by simp)]
        have r1 : specGoSt (j + 1) ((hour :: rest).map (·.status)) (some (cs, cst)) =
            specGoSt (j + 1 + 1) (rest.map (·.status)) (some (cs, cst)) := by
          simp [specGoSt, hsp]
        rw [r1]

/-- C2: on a `DaySchedule` holding 24 hour-ascending entries,
`get_outage_periods` merges each maximal run of consecutive non-powered
hours into one `(start, end, status)` range (the spec-level `specPeriods`),
closing a run that reaches hour 24 at `"24:00"`; in particular hours 3-5
`no` give exactly `("02:00", "05:00", no)`, and hours 23-24 `no` give a
period ending `"24:00"`. -/
theorem claim_C2 :
    (∀ d : DaySchedule, d.hours.length = 24 →
       (∀ (i : Nat) (hi : i < d.hours.length), (d.hours.get ⟨i, hi⟩).hour = i + 1) →
       d.get_outage_periods = some (specPeriods (d.hours.map (·.status)))) ∧
    (standardDay (statusesOffAt [3, 4, 5])).get_outage_periods =
      some [("02:00", "05:00", PowerStatus.NO)] ∧
    (standardDay (statusesOffAt [23, 24])).get_outage_periods =
      some [("22:00", "24:00", PowerStatus.NO)] := by
  refine ⟨?_, rfl, rfl⟩
  intro d hlen hhour
  have h := outageGo_spec d hlen hhour d.hours 0 [] none rfl (by simp)
  unfold DaySchedule.get_outage_periods
  rw [h]
  have h2 := (specGoSt_eq (d.hours.map (·.status)) 1 (by simp [hlen])).1
  simp only [List.nil_append]
  rw [h2]
  rfl

/-- Witness for C2 at a concrete standard day. -/
theorem claim_C2_witness :
    (standardDay (statusesOffAt [7, 8])).get_outage_periods =
      some (specPeriods ((standardDay (statusesOffAt [7, 8])).hours.map (·.status))) :=
  claim_C2.1 (standardDay (statusesOffAt [7, 8])) rfl (by decide)

/-- C10: every status other than `yes` counts as non-powered for
`get_outage_periods`, and a run of consecutive non-powered hours with
differing statuses (hour 3 `no`, hour 4 `maybe`) merges into a single
period labelled with the first hour's status. -/
theorem claim_C10 :
    (∀ s : PowerStatus, s ≠ PowerStatus.YES → s.has_power = false) ∧
    (standardDay mixedStatuses).get_outage_periods =
      some [("02:00", "04:00", PowerStatus.NO)] := by
  refine ⟨?_, rfl⟩
  intro s hs
  cases s
  · exact absurd rfl hs
  all_goals rfl

/-- Witness for C10: `maybe` is not powered. -/
theorem claim_C10_witness :
    PowerStatus.MAYBE ≠ PowerStatus.YES ∧ PowerStatus.MAYBE.has_power = false :=
  ⟨by decide, claim_C10.1 PowerStatus.MAYBE (by decide)⟩

/-- `findAssignEnd` finds the end of the leftmost assignment match: it
returns `some e` exactly when some position `i` matches `name\s*=\s*` with
match length `n`, no earlier position matches, and `e = i + n`. -/
theorem findAssignEnd_iff :
    ∀ (html name : List Char) (e : Nat),
      findAssignEnd html name = some e ↔
        ∃ i n, (∀ j, j < i → matchAssignLen (html.drop j) name = none) ∧
          matchAssignLen (html.drop i) name = some n ∧ e = i + n := by
  intro html
  induction html with
  | nil =>
    intro name e
    simp only [findAssignEnd]
    constructor
    · intro h
      exact ⟨0, e, by omega, by simpa using h, by omega⟩
    · rintro ⟨i, n, hnone, hsome, rfl⟩
      rcases Nat.eq_zero_or_pos i with hi | hi
      · subst hi
        simpa using hsome
      · have h0 := hnone 0 hi
        simp only [List.drop_nil] at h0 hsome
        rw [h0] at hsome
        cases hsome
  | cons c t ih =>
    intro name e
    simp only [findAssignEnd]
    cases hm : matchAssignLen (c :: t) name with
    | some n =>
      constructor
      · intro h
        have h2 : some n = some e := h
        cases h2
        exact ⟨0, e, by omega, by simpa using hm, by omega⟩
      · rintro ⟨i, n', hnone, hsome, rfl⟩
        rcases Nat.eq_zero_or_pos i with hi | hi
        · subst hi
          simp only [List.drop_zero] at hsome
          rw [hm] at hsome
          cases hsome
          show some n = some (0 + n)
          simp
        · have h0 := hnone 0 hi
          simp only [List.drop_zero] at h0
          rw [hm] at h0
          cases h0
    | none =>
      constructor
      · intro h
        have h2 : (findAssignEnd t name).map (· + 1) = some e := h
        cases he' : findAssignEnd t name with
        | none => rw [he'] at h2; cases h2
        | some e' =>
          rw [he'] at h2
          have h3 : some (e' + 1) = some e := h2
          cases h3
          obtain ⟨i, n, hnone, hsome, rfl⟩ := (ih name e').mp he'
          refine ⟨i + 1, n, ?_, by simpa using hsome, by omega⟩
          intro j hj
          cases j with
          | zero => simpa using hm
          | succ j' => simpa using hnone j' (by omega)
      · rintro ⟨i, n, hnone, hsome, rfl⟩
        cases i with
        | zero =>
          simp only [List.drop_zero] at hsome
          rw [hm] at hsome
          cases hsome
        | succ i' =>
          have he' : findAssignEnd t name = some (i' + n) := by
            refine (ih name (i' + n)).mpr ⟨i', n, ?_, by simpa using hsome, rfl⟩
            intro j hj
            simpa using hnone (j + 1) (by omega)
          show (findAssignEnd t name).map (· + 1) = some (i' + 1 + n)
          rw [he']
          show some (i' + n + 1) = some (i' + 1 + n)
          congr 1
          omega

theorem dquote_ne_bslash : ¬(dquote = bslash) := by decide

theorem lbrace_ne_bslash : ¬(lbrace = bslash) := by decide

theorem lbrace_ne_dquote : ¬(lbrace = dquote) := by decide

theorem rbrace_ne_bslash : ¬(rbrace = bslash) := by decide

theorem rbrace_ne_dquote : ¬(rbrace = dquote) := by decide

theorem rbrace_ne_lbrace : ¬(rbrace = lbrace) := by decide

/-- The brace-counting loop, started with depth at least 1, stops with
`some r` exactly at the first prefix whose scan depth returns to zero:
`r = i + e` where `e` is the least positive prefix length with depth 0. -/
theorem braceScan_some_iff :
    ∀ (cs : List Char) (d : Int) (inStr esc : Bool) (i : Nat), 1 ≤ d →
      ∀ r, braceScan cs d inStr esc i = some r ↔
        ∃ e, r = i + e ∧ 1 ≤ e ∧ e ≤ cs.length ∧
          ((cs.take e).foldl scanStep (d, inStr, esc)).1 = 0 ∧
          ∀ k, 1 ≤ k → k < e → ((cs.take k).foldl scanStep (d, inStr, esc)).1 ≠ 0 := by
  intro cs
  induction cs with
  | nil =>
    intro d inStr esc i hd r
    constructor
    · intro h
      simp only [braceScan] at h
      rw [if_neg (by omega)] at h
      cases h
    · rintro ⟨e, rfl, he1, he2, hz, hleast⟩
      simp only [List.length_nil] at he2
      omega
  | cons c cs ih =>
    intro d inStr esc i hd r
    have key : ∀ (d' : Int) (inStr' esc' : Bool),
        scanStep (d, inStr, esc) c = (d', inStr', esc') → 1 ≤ d' →
        (braceScan cs d' inStr' esc' (i + 1) = some r ↔
          ∃ e, r = i + e ∧ 1 ≤ e ∧ e ≤ (c :: cs).length ∧
            (((c :: cs).take e).foldl scanStep (d, inStr, esc)).1 = 0 ∧
            ∀ k, 1 ≤ k → k < e →
              (((c :: cs).take k).foldl scanStep (d, inStr, esc)).1 ≠ 0) := by
      intro d' inStr' esc' hstep hd'
      rw [ih d' inStr' esc' (i + 1) hd' r]
      constructor
      · rintro ⟨e', rfl, he1, he2, hz, hleast⟩
        refine ⟨e' + 1, by omega, by omega,
          by simp only [List.length_cons]; omega, ?_, ?_⟩
        · rw [List.take_succ_cons, List.foldl_cons, hstep]
          exact hz
        · intro k hk1 hk2
          cases k with
          | zero => omega
          | succ k' =>
            rw [List.take_succ_cons, List.foldl_cons, hstep]
            rcases Nat.eq_zero_or_pos k' with hk' | hk'
            · subst hk'
              simp only [List.take_zero, List.foldl_nil]
              omega
            · exact hleast k' hk' (by omega)
      · rintro ⟨e, rfl, he1, he2, hz, hleast⟩
        have he2' : 2 ≤ e := by
          by_contra hlt
          have he1' : e = 1 := by omega
          subst he1'
          rw [List.take_succ_cons, List.take_zero, List.foldl_cons,
            List.foldl_nil, hstep] at hz
          omega
        obtain ⟨e', rfl⟩ : ∃ e', e = e' + 1 := ⟨e - 1, by omega⟩
        refine ⟨e', by omega, by omega,
          by simp only [List.length_cons] at he2; omega, ?_, ?_⟩
        · rw [List.take_succ_cons, List.foldl_cons, hstep] at hz
          exact hz
        · intro k hk1 hk2
          have h1 := hleast (k + 1) (by omega) (by omega)
          rw [List.take_succ_cons, List.foldl_cons, hstep] at h1
          exact h1
    cases esc with
    | true =>
      have hb : braceScan (c :: cs) d inStr true i = braceScan cs d inStr false (i + 1) := by
        simp [braceScan]
      rw [hb]
      exact key d inStr false (by simp [scanStep]) hd
    | false =>
      by_cases hc1 : c = bslash
      · subst hc1
        have hb : braceScan (bslash :: cs) d inStr false i =
            braceScan cs d inStr true (i + 1) := by
          simp [braceScan]
        rw [hb]
        exact key d inStr true (by simp [scanStep]) hd
      · by_cases hc2 : c = dquote
        · subst hc2
          have hb : braceScan (dquote :: cs) d inStr false i =
              braceScan cs d (!inStr) false (i + 1) := by
            simp [braceScan, dquote_ne_bslash]
          rw [hb]
          exact key d (!inStr) false (by simp [scanStep, dquote_ne_bslash]) hd
        · cases inStr with
          | true =>
            have hb : braceScan (c :: cs) d true false i =
                braceScan cs d true false (i + 1) := by
              simp [braceScan, hc1, hc2]
            rw [hb]
            exact key d true false (by simp [scanStep, hc1, hc2]) hd
          | false =>
            by_cases hc4 : c = lbrace
            · subst hc4
              have hb : braceScan (lbrace :: cs) d false false i =
                  braceScan cs (d + 1) false false (i + 1) := by
                simp [braceScan, lbrace_ne_bslash, lbrace_ne_dquote]
              rw [hb]
              exact key (d + 1) false false
                (by simp [scanStep, lbrace_ne_bslash, lbrace_ne_dquote]) (by omega)
            · by_cases hc5 : c = rbrace
              · subst hc5
                by_cases hd1 : d - 1 = 0
                · have hb : braceScan (rbrace :: cs) d false false i = some (i + 1) := by
                    simp [braceScan, rbrace_ne_bslash, rbrace_ne_dquote,
                      rbrace_ne_lbrace, hd1]
                  rw [hb]
                  constructor
                  · intro h
                    have h2 : some (i + 1) = some r := h
                    cases h2
                    refine ⟨1, rfl, by omega, by simp, ?_, by omega⟩
                    rw [List.take_succ_cons, List.take_zero, List.foldl_cons,
                      List.foldl_nil]
                    simp [scanStep, rbrace_ne_bslash, rbrace_ne_dquote,
                      rbrace_ne_lbrace]
                    omega
                  · rintro ⟨e, rfl, he1, he2, hz, hleast⟩
                    have he : e = 1 := by
                      by_contra hne
                      have h2 := hleast 1 (by omega) (by omega)
                      rw [List.take_succ_cons, List.take_zero, List.foldl_cons,
                        List.foldl_nil] at h2
                      simp [scanStep, rbrace_ne_bslash, rbrace_ne_dquote,
                        rbrace_ne_lbrace] at h2
                      omega
                    subst he
                    rfl
                · have hb : braceScan (rbrace :: cs) d false false i =
                      braceScan cs (d - 1) false false (i + 1) := by
                    simp [braceScan, rbrace_ne_bslash, rbrace_ne_dquote,
                      rbrace_ne_lbrace, hd1]
                  rw [hb]
                  exact key (d - 1) false false
                    (by simp [scanStep, rbrace_ne_bslash, rbrace_ne_dquote,
                      rbrace_ne_lbrace]) (by omega)
              · have hb : braceScan (c :: cs) d false false i =
                    braceScan cs d false false (i + 1) := by
                  simp [braceScan, hc1, hc2, hc4, hc5]
                rw [hb]
                exact key d false false (by simp [scanStep, hc1, hc2, hc4, hc5]) hd

/-- The brace-counting loop reports unbalanced braces exactly when the scan
depth never returns to zero on any prefix. -/
theorem braceScan_none_iff (cs : List Char) (d : Int) (inStr esc : Bool) (i : Nat)
    (hd : 1 ≤ d) :
    braceScan cs d inStr esc i = none ↔
      ∀ k, 1 ≤ k → k ≤ cs.length →
        ((cs.take k).foldl scanStep (d, inStr, esc)).1 ≠ 0 := by
  constructor
  · intro h k hk1 hk2 hz
    have hP : ∃ m, 1 ≤ m ∧ m ≤ cs.length ∧
        ((cs.take m).foldl scanStep (d, inStr, esc)).1 = 0 := ⟨k, hk1, hk2, hz⟩
    have hspec := Nat.find_spec hP
    have hsome : braceScan cs d inStr esc i = some (i + Nat.find hP) := by
      rw [braceScan_some_iff cs d inStr esc i hd]
      refine ⟨Nat.find hP, rfl, hspec.1, hspec.2.1, hspec.2.2, ?_⟩
      intro m hm1 hm2 hmz
      exact Nat.find_min hP hm2 ⟨hm1, by omega, hmz⟩
    rw [hsome] at h
    cases h
  · intro hall
    cases hb : braceScan cs d inStr esc i with
    | none => rfl
    | some r =>
      obtain ⟨e, rfl, he1, he2, hz, -⟩ :=
        (braceScan_some_iff cs d inStr esc i hd r).mp hb
      exact absurd hz (hall e he1 he2)

/-- After the opening brace has been found, `_extract_js_object` succeeds
with exactly the prefix ending at the first return of the scan depth to
zero, and reports unbalanced braces exactly when the depth never returns
to zero. -/
theorem extract_ok_iff (html name : List Char) (start : Nat) (rest : List Char)
    (hf : findAssignEnd html name = some start)
    (ht : html.drop start = lbrace :: rest) :
    (∀ s, extract_js_object html name = .ok s ↔
      ∃ e, ClosesAt (html.drop start) e ∧ s = (html.drop start).take e) ∧
    (extract_js_object html name = .error .unbalanced ↔
      ∀ k, 1 ≤ k → k ≤ (html.drop start).length → scanDepth (html.drop start) k ≠ 0) := by
  have hstep0 : scanStep (0, false, false) lbrace = (1, false, false) := by
    simp [scanStep, lbrace_ne_bslash, lbrace_ne_dquote]
  have hdepth : ∀ k', scanDepth (lbrace :: rest) (k' + 1) =
      ((rest.take k').foldl scanStep (1, false, false)).1 := by
    intro k'
    simp only [scanDepth, List.take_succ_cons, List.foldl_cons, hstep0]
  have hb : braceScan (lbrace :: rest) 0 false false 0 =
      braceScan rest 1 false false 1 := by
    simp [braceScan, lbrace_ne_bslash, lbrace_ne_dquote]
  have hextract : extract_js_object html name =
      match braceScan rest 1 false false 1 with
      | none => .error .unbalanced
      | some e => .ok ((lbrace :: rest).take e) := by
    simp only [extract_js_object, hf, ht, hb, eq_self_iff_true, if_true]
  rw [ht]
  constructor
  · intro s
    rw [hextract]
    constructor
    · intro h
      cases hbs : braceScan rest 1 false false 1 with
      | none => rw [hbs] at h; cases h
      | some r =>
        rw [hbs] at h
        have h2 : Except.ok ((lbrace :: rest).take r) = (.ok s : Except ExtractError (List Char)) := h
        cases h2
        obtain ⟨e', hre, he1, he2, hz, hleast⟩ :=
          (braceScan_some_iff rest 1 false false 1 (by omega) r).mp hbs
        refine ⟨e' + 1, ⟨by omega, by simp only [List.length_cons]; omega, ?_, ?_⟩, ?_⟩
        · rw [hdepth e']
          exact hz
        · intro k hk1 hk2
          cases k with
          | zero => omega
          | succ k' =>
            rw [hdepth k']
            rcases Nat.eq_zero_or_pos k' with hk' | hk'
            · subst hk'
              simp only [List.take_zero, List.foldl_nil]
              omega
            · exact hleast k' hk' (by omega)
        · rw [hre]
          congr 1
          omega
    · rintro ⟨e, ⟨he1, he2, hz, hleast⟩, rfl⟩
      have he2' : 2 ≤ e := by
        by_contra hlt
        have he1' : e = 1 := by omega
        subst he1'
        rw [hdepth 0] at hz
        simp only [List.take_zero, List.foldl_nil] at hz
        omega
      obtain ⟨e', rfl⟩ : ∃ e', e = e' + 1 := ⟨e - 1, by omega⟩
      have hbs : braceScan rest 1 false false 1 = some (1 + e') := by
        rw [braceScan_some_iff rest 1 false false 1 (by omega)]
        refine ⟨e', rfl, by omega, by simp only [List.length_cons] at he2; omega, ?_, ?_⟩
        · rw [← hdepth e']
          exact hz
        · intro k hk1 hk2
          have h1 := hleast (k + 1) (by omega) (by omega)
          rw [hdepth k] at h1
          exact h1
      rw [hbs]
      show Except.ok ((lbrace :: rest).take (1 + e')) =
        Except.ok ((lbrace :: rest).take (e' + 1))
      rw [Nat.add_comm]
  · rw [hextract]
    constructor
    · intro h
      cases hbs : braceScan rest 1 false false 1 with
      | some r => rw [hbs] at h; cases h
      | none =>
        intro k hk1 hk2
        cases k with
        | zero => omega
        | succ k' =>
          rw [hdepth k']
          rcases Nat.eq_zero_or_pos k' with hk' | hk'
          · subst hk'
            simp only [List.take_zero, List.foldl_nil]
            omega
          · have hall := (braceScan_none_iff rest 1 false false 1 (by omega)).mp hbs
            refine hall k' hk' ?_
            simp only [List.length_cons] at hk2
            omega
    · intro hall
      have hbs : braceScan rest 1 false false 1 = none := by
        rw [braceScan_none_iff rest 1 false false 1 (by omega)]
        intro k hk1 hk2
        have h1 := hall (k + 1) (by omega) (by simp only [List.length_cons]; omega)
        rw [hdepth k] at h1
        exact h1
      rw [hbs]

/-- C3: `_extract_js_object` locates the first occurrence of the name
followed by `=` (leftmost regex match), requires the next non-whitespace
character to be an opening brace, and returns exactly the substring from
that brace to its matching closing brace — the first prefix whose brace
depth (counted outside double-quoted literals, honouring backslash escapes)
returns to zero.  It fails with the name-not-found error exactly when the
assignment is absent, with the expected-object error exactly when the next
character is not an opening brace, and with the unbalanced error exactly
when the depth never returns to zero.  The spec's two concrete examples
evaluate as claimed, with a quoted brace not closing the scan early. -/
theorem claim_C3 :
    (∀ (html name : List Char) (e : Nat),
       findAssignEnd html name = some e ↔
         ∃ i n, (∀ j, j < i → matchAssignLen (html.drop j) name = none) ∧
           matchAssignLen (html.drop i) name = some n ∧ e = i + n) ∧
    (∀ html name, extract_js_object html name = .error .nameNotFound ↔
       findAssignEnd html name = none) ∧
    (∀ html name start, findAssignEnd html name = some start →
       (extract_js_object html name = .error .expectedObject ↔
         (html.drop start).head? ≠ some lbrace)) ∧
    (∀ html name start, findAssignEnd html name = some start →
       (html.drop start).head? = some lbrace →
       ((∀ s, extract_js_object html name = .ok s ↔
          ∃ e, ClosesAt (html.drop start) e ∧ s = (html.drop start).take e) ∧
        (extract_js_object html name = .error .unbalanced ↔
          ∀ k, 1 ≤ k → k ≤ (html.drop start).length →
            scanDepth (html.drop start) k ≠ 0))) ∧
    extract_js_object "var X = \x7b\"a\":\x7b\"b\":1\x7d\x7d;".data "X".data =
      .ok "\x7b\"a\":\x7b\"b\":1\x7d\x7d".data ∧
    extract_js_object "Y = \x7b\"a\":\"\x7d\"\x7d tail".data "Y".data =
      .ok "\x7b\"a\":\"\x7d\"\x7d".data := by
  refine ⟨findAssignEnd_iff, ?_, ?_, ?_, rfl, rfl⟩
  · intro html name
    cases hf : findAssignEnd html name with
    | none =>
      simp only [extract_js_object, hf]
    | some start =>
      simp only [extract_js_object, hf]
      constructor
      · intro h
        exfalso
        cases ht : html.drop start with
        | nil => rw [ht] at h; cases h
        | cons c rest =>
          rw [ht] at h
          by_cases hc : c = lbrace
          · subst hc
            cases hbs : braceScan (lbrace :: rest) 0 false false 0 with
            | none => simp [hbs] at h
            | some e => simp [hbs] at h
          · simp [hc] at h
      · intro h
        cases h
  · intro html name start hf
    simp only [extract_js_object, hf]
    cases ht : html.drop start with
    | nil => simp
    | cons c rest =>
      by_cases hc : c = lbrace
      · subst hc
        constructor
        · intro h
          cases hbs : braceScan (lbrace :: rest) 0 false false 0 with
          | none => simp [hbs] at h
          | some e => simp [hbs] at h
        · intro h
          exact absurd (rfl : (lbrace :: rest).head? = some lbrace) h
      · simp [hc]
  · intro html name start hf hhead
    cases ht : html.drop start with
    | nil => rw [ht] at hhead; cases hhead
    | cons c rest =>
      rw [ht] at hhead
      have hc : c = lbrace := by simpa using hhead
      subst hc
      rw [← ht]
      exact extract_ok_iff html name start rest hf ht

/-- Witness for C3: the success characterisation applied at the spec's
first concrete example. -/
theorem claim_C3_witness :
    ∃ e, ClosesAt ("var X = \x7b\"a\":\x7b\"b\":1\x7d\x7d;".data.drop 8) e ∧
      "\x7b\"a\":\x7b\"b\":1\x7d\x7d".data =
        ("var X = \x7b\"a\":\x7b\"b\":1\x7d\x7d;".data.drop 8).take e :=
  ((claim_C3.2.2.2.1 "var X = \x7b\"a\":\x7b\"b\":1\x7d\x7d;".data "X".data 8
      rfl rfl).1 "\x7b\"a\":\x7b\"b\":1\x7d\x7d".data).mp rfl
